import Mathlib

/-!
# Verification of the TinyGo `interp` package (compile-time initializer evaluation)

This file gives a shallow embedding of the driver (`Run`), the frame entry
point (`(*Eval).function`), the dirty-set bookkeeping (`markDirty`) and the
test helpers (`fuzzyEqualIR`, `filterIrrelevantIRLines`) of the `interp`
package, and proves/refutes the specification claims about them.

Modelling conventions:
* The module state relevant to the driver is the instruction list of the
  entry basic block of `runtime.initAll`.  Instructions are modelled by the
  features the driver inspects: whether they are a return, a call (and
  whether the called value is a function), or something else.
* Evaluation of one init function (`e.Function(...)`) is a black box to the
  driver; it is modelled by an oracle `Nat → Option EvalErr` giving the
  outcome of the i-th evaluated init (`none` = success).  This captures any
  behaviour of the real evaluator, including state-dependent ones.
* Go `panic` is modelled by an `Option` result: `none` means the function
  panicked instead of returning.
* Go's `EraseFromParentAsInstruction` removes one specific instruction by
  identity.  In the list model the driver erases collected calls in
  left-to-right order, so erasing the first occurrence of the call value is
  identity-faithful.
-/

namespace Interp

/-- An instruction of the entry block of `runtime.initAll`, as seen by the
driver: the driver distinguishes return instructions, call instructions
(with whether the called value is a function, and the callee name), and
everything else (e.g. the dummy `alloca` the driver itself inserts). -/
inductive Instr where
  | alloca : Instr
  | call (callee : String) (calleeIsFunction : Bool) : Instr
  | ret : Instr
  | other : Instr
deriving DecidableEq, Repr

/-- Errors returned by evaluating one init function (`e.Function`):
`unreachable` models `ErrUnreachable`, `unevaluable` the local
"unevaluable" error, `other` any other evaluation error. -/
inductive EvalErr where
  | unreachable : EvalErr
  | unevaluable : EvalErr
  | other (msg : String) : EvalErr
deriving DecidableEq, Repr

/-- Errors returned by `Run` itself: the two malformed-IR errors created in
`Run` and propagated evaluation errors. -/
inductive RunErr where
  | notDirectCalls : RunErr
  | notInitCalls : RunErr
  | evalErr (e : EvalErr) : RunErr
deriving DecidableEq, Repr

/-- The values the driver passes as parameters to every init call: the
driver always passes `&LocalValue{e, undefPtr}` (an undef `i8*`) twice. -/
inductive ArgValue where
  | localUndefPtr : ArgValue
deriving DecidableEq, Repr

/-- Observable driver events: erasing a call instruction, and beginning the
evaluation of a callee (with the package name and parameter list passed). -/
inductive Event where
  | erase (callee : String) : Event
  | eval (callee pkg : String) (args : List ArgValue) : Event
deriving DecidableEq, Repr

/-- The outcome of `Run`: the returned error (`none` = nil), the final
instruction list of the entry block, and the trace of driver events. -/
structure RunResult where
  err : Option RunErr
  block : List Instr
  trace : List Event
deriving DecidableEq, Repr

/-- The first loop of `Run`: iterate over the entry block (the freshly
inserted dummy at the head is skipped by identity, so the scan effectively
covers the instructions that were already present), stop at a return
instruction, collect direct calls to functions, and fail on anything
else. -/
def collectInitCalls : List Instr → Except RunErr (List String)
  | [] => .ok []
  | Instr.ret :: _ => .ok []
  | Instr.call callee true :: rest =>
      match collectInitCalls rest with
      | .ok calls => .ok (callee :: calls)
      | .error e => .error e
  | _ :: _ => .error RunErr.notDirectCalls

/-- `call.EraseFromParentAsInstruction()`: remove the (first occurrence of
the) given init call from the block. -/
def eraseCall (callee : String) : List Instr → List Instr
  | [] => []
  | i :: rest =>
      if i = Instr.call callee true then rest else i :: eraseCall callee rest

/-- `strings.HasSuffix(initName, ".init")`.  Init names in this IR are
ASCII, so byte-level and character-level suffix tests agree; the test is
phrased on the character list so that it evaluates in the kernel. -/
def hasInitSuffix (s : String) : Bool :=
  ".init".data.isSuffixOf s.data

/-- `initName[:len(initName)-5]`: strip the 5-byte `.init` suffix (ASCII,
so 5 bytes = 5 characters). -/
def dropInitSuffix (s : String) : String :=
  String.mk (s.data.take (s.data.length - 5))

/-- The second loop of `Run`: for each collected call in order, check the
`.init` suffix, compute the package name by stripping the 5-byte `.init`
suffix, erase the call instruction, then evaluate the callee with two undef
`i8*` arguments.  `ErrUnreachable` breaks out of the loop (and `Run`
returns nil); any other error is returned immediately. -/
def runInits (oracle : Nat → Option EvalErr) :
    Nat → List String → List Instr → List Event → RunResult
  | _, [], block, trace => ⟨none, block, trace⟩
  | idx, callee :: rest, block, trace =>
      if hasInitSuffix callee then
        let pkgName := dropInitSuffix callee
        let block' := eraseCall callee block
        let trace' := trace ++
          [Event.erase callee,
           Event.eval callee pkgName [ArgValue.localUndefPtr, ArgValue.localUndefPtr]]
        match oracle idx with
        | some EvalErr.unreachable => ⟨none, block', trace'⟩
        | some e => ⟨some (RunErr.evalErr e), block', trace'⟩
        | none => runInits oracle (idx + 1) rest block' trace'
      else
        ⟨some RunErr.notInitCalls, block, trace⟩

/-- `Run`: insert the dummy alloca before the first instruction of the
entry block (it is never removed again), collect the init calls, then
process them.  On a collect error the block still carries the new dummy. -/
def Run (block : List Instr) (oracle : Nat → Option EvalErr) : RunResult :=
  let blockD := Instr.alloca :: block
  match collectInitCalls block with
  | .error e => ⟨some e, blockD, []⟩
  | .ok calls => runInits oracle 0 calls blockD []

/-! ## `markDirty` and the dirty-set (`eval.go` lines 129–152) -/

/-- A global variable as `markDirty` sees it: its identity and whether it
is an LLVM global constant (`IsGlobalConstant`, read-only). -/
structure GlobalVar where
  id : Nat
  isGlobalConstant : Bool
deriving DecidableEq, Repr

/-- An LLVM value, modelled by the features `markDirty` inspects:
global variables; constants with their operand list (a constant with at
least two operands whose first operand is a global variable "looks like a
constant getelementptr of a global"); `getelementptr` instructions; and
everything else (non-constant, non-global, non-GEP). -/
inductive IRValue where
  | globalVar (g : GlobalVar) : IRValue
  | constExpr (ops : List IRValue) : IRValue
  | gepInstr : IRValue
  | otherValue : IRValue

/-- `IsAGlobalVariable(v)` is non-nil. -/
def isGlobalVariable : IRValue → Bool
  | IRValue.globalVar _ => true
  | _ => false

/-- The dirty-set and side-effect-cache state of the `Eval` object.  The
dirty-set is a map keyed by the global (value semantics: a membership
list); the side-effect cache is `none` when the Go map is nil, `some`
otherwise (its contents are opaque here — the scanner is a separate
file). -/
structure EvalState where
  dirtyGlobals : List GlobalVar
  sideEffectFuncs : Option (List Nat)
deriving DecidableEq, Repr

/-- `(*Eval).markDirty`: mark the value dirty, recursively.  A read-only
global is skipped; a non-constant global not yet in the dirty-set is added
and the whole side-effect cache is discarded; a constant with at least two
operands whose first operand is a global variable recurses into that
global; a constant GEP *instruction* hits `panic("interp: todo: GEP")`,
modelled by returning `none`; everything else is a no-op. -/
def markDirty (e : EvalState) : IRValue → Option EvalState
  | IRValue.globalVar g =>
      if g.isGlobalConstant then
        some e
      else if g ∈ e.dirtyGlobals then
        some e
      else
        some { dirtyGlobals := g :: e.dirtyGlobals, sideEffectFuncs := none }
  | IRValue.constExpr (op0 :: _ :: _) =>
      if isGlobalVariable op0 then
        markDirty e op0
      else
        some e
  | IRValue.constExpr _ => some e
  | IRValue.gepInstr => none
  | IRValue.otherValue => some e

/-! ## `fuzzyEqualIR` and `filterIrrelevantIRLines` (interp_test.go) -/

/-- The indexed comparison loop of `fuzzyEqualIR`
(`for i, line := range lines1 { if line != lines2[i] { return false } }`),
which under the preceding length guard is pointwise comparison. -/
def linesMatch : List String → List String → Bool
  | [], [] => true
  | l1 :: r1, l2 :: r2 => l1 == l2 && linesMatch r1 r2
  | _, _ => false

/-- `filterIrrelevantIRLines`: drop empty lines, lines whose first
character is `;`, and lines beginning with `source_filename = `.  (Go
indexes the first *byte*; IR text is ASCII, where the first byte equals
the first character.) -/
def filterIrrelevantIRLines : List String → List String
  | [] => []
  | line :: rest =>
      if line == "" || line.front == ';' then filterIrrelevantIRLines rest
      else if line.startsWith "source_filename = " then filterIrrelevantIRLines rest
      else line :: filterIrrelevantIRLines rest

/-- `fuzzyEqualIR`: split both strings on newlines, filter irrelevant
lines, compare lengths and then lines pointwise. -/
def fuzzyEqualIR (s1 s2 : String) : Bool :=
  let lines1 := filterIrrelevantIRLines (s1.splitOn "\n")
  let lines2 := filterIrrelevantIRLines (s2.splitOn "\n")
  if lines1.length != lines2.length then false
  else linesMatch lines1 lines2

/-- The filter exactly as the claim words it: keep the lines that are
non-empty, do not start with `;`, and do not begin with
`source_filename = `. -/
def relevantLineFilter (lines : List String) : List String :=
  lines.filter (fun line =>
    !(line == "" || line.front == ';' || line.startsWith "source_filename = "))

/-! ## Parameter seeding in `(*Eval).function` (eval.go lines 90–99) -/

/-- The parameter-seeding loop at the top of `(*Eval).function`
(`for i, param := range fn.Params() { fr.locals[param] = params[i] }`):
frame locals are seeded positionally from the supplied `params` slice with
no length check, so a callee with more IR parameters than supplied values
indexes out of range — a Go runtime panic, modelled as `none`.  Parameters
are identified by opaque ids. -/
def seedLocals {α : Type} : List Nat → List α → Option (List (Nat × α))
  | [], _ => some []
  | _ :: _, [] => none
  | p :: ps, v :: vs =>
      match seedLocals ps vs with
      | some l => some ((p, v) :: l)
      | none => none

/-! ## Recursion depth (spec §5; evaluator call dispatch not in src) -/

/-- Modelled from the spec: the frame evaluator's call dispatch
(`frame.evalBasicBlock`, which recursively enters `(*Eval).function`) is
not among the source files under study — only its entry point `function`
is — so the recursion-depth ceiling of spec §5 is modelled here.  `g fn`
lists the calls evaluated by `fn`'s body in order; `fuel` is the number of
frames that may still be entered before the frame depth exceeds the
configured ceiling (`fuel = ceiling + 1 − depth`); entering a frame with
no fuel left yields the local `unevaluable` error instead of recursing
further. -/
def specFunction (g : Nat → List Nat) : Nat → Nat → Except EvalErr Unit
  | 0, _ => Except.error EvalErr.unevaluable
  | fuel + 1, fn =>
      (g fn).foldl
        (fun acc callee =>
          match acc with
          | Except.error e => Except.error e
          | Except.ok _ => specFunction g fuel callee)
        (Except.ok ())

/-- The two-function cycle: init `A` (0) calls `B` (1) and `B` calls
`A`. -/
def cycleGraph : Nat → List Nat := fun n => if n = 0 then [1] else [0]

/-! ## Proof-side abbreviations for the driver -/

/-- The two driver events generated for one processed init call: erase the
call, then begin evaluation of the callee with the stripped package name
and two undef `i8*` arguments. -/
def evPair (callee : String) : List Event :=
  [Event.erase callee,
   Event.eval callee (dropInitSuffix callee)
     [ArgValue.localUndefPtr, ArgValue.localUndefPtr]]

/-- Erase a list of calls from a block, left to right. -/
def eraseList (callees : List String) (block : List Instr) : List Instr :=
  callees.foldl (fun b c => eraseCall c b) block

lemma eraseList_nil (b : List Instr) : eraseList [] b = b := rfl

lemma eraseList_cons (c : String) (cs : List String) (b : List Instr) :
    eraseList (c :: cs) b = eraseList cs (eraseCall c b) := rfl

lemma eraseList_append (xs ys : List String) (b : List Instr) :
    eraseList (xs ++ ys) b = eraseList ys (eraseList xs b) := by
  simp [eraseList]

lemma eraseList_take_succ (calls : List String) (k : Nat) (hk : k < calls.length)
    (b : List Instr) :
    eraseList (calls.take (k + 1)) b
      = eraseCall calls[k] (eraseList (calls.take k) b) := by
  rw [← List.take_concat_get calls k hk, List.concat_eq_append, eraseList_append]
  simp [eraseList]

lemma flatMap_take_succ (calls : List String) (k : Nat) (hk : k < calls.length) :
    (calls.take (k + 1)).flatMap evPair
      = (calls.take k).flatMap evPair ++ evPair calls[k] := by
  rw [← List.take_concat_get calls k hk, List.concat_eq_append, List.flatMap_append]
  rfl

/-- Stepping lemma: as long as the first `k` collected calls carry the
`.init` suffix and evaluate without error, `runInits` reaches the state in
which they are all erased and their events emitted. -/
lemma runInits_steps (oracle : Nat → Option EvalErr) :
    ∀ (k : Nat) (calls : List String) (idx : Nat) (block : List Instr)
      (trace : List Event),
      k ≤ calls.length →
      (∀ j (hj : j < calls.length), j < k → hasInitSuffix calls[j] = true) →
      (∀ j, j < k → oracle (idx + j) = none) →
      runInits oracle idx calls block trace =
        runInits oracle (idx + k) (calls.drop k) (eraseList (calls.take k) block)
          (trace ++ (calls.take k).flatMap evPair) := by
  intro k
  induction k with
  | zero =>
      intro calls idx block trace _ _ _
      simp [eraseList]
  | succ k ih =>
      intro calls idx block trace hk hsuf hok
      match calls with
      | [] => simp at hk
      | c :: cs =>
          have hs : hasInitSuffix c = true := hsuf 0 (by simp) (Nat.succ_pos k)
          have ho : oracle idx = none := by simpa using hok 0 (Nat.succ_pos k)
          have step : runInits oracle idx (c :: cs) block trace =
              runInits oracle (idx + 1) cs (eraseCall c block) (trace ++ evPair c) := by
            simp [runInits, hs, ho, evPair]
          have hk' : k ≤ cs.length := by simpa using hk
          have hsuf' : ∀ j (hj : j < cs.length), j < k → hasInitSuffix cs[j] = true := by
            intro j hj hjk
            have := hsuf (j + 1) (by simpa using Nat.succ_lt_succ hj)
              (Nat.succ_lt_succ hjk)
            simpa using this
          have hok' : ∀ j, j < k → oracle (idx + 1 + j) = none := by
            intro j hj
            have := hok (j + 1) (Nat.succ_lt_succ hj)
            have harith : idx + (j + 1) = idx + 1 + j := by omega
            rwa [harith] at this
          rw [step, ih cs (idx + 1) (eraseCall c block) (trace ++ evPair c) hk' hsuf' hok']
          have harith : idx + 1 + k = idx + (k + 1) := by omega
          rw [harith]
          simp [eraseList_cons]

/-- Trace-shape lemma: `runInits` always emits the event pairs of some
prefix of the collected calls, in order, and every processed callee passed
the `.init` suffix check. -/
lemma runInits_trace_shape (oracle : Nat → Option EvalErr) :
    ∀ (calls : List String) (idx : Nat) (block : List Instr) (trace : List Event),
      ∃ k, k ≤ calls.length ∧
        (∀ c ∈ calls.take k, hasInitSuffix c = true) ∧
        (runInits oracle idx calls block trace).trace =
          trace ++ (calls.take k).flatMap evPair := by
  intro calls
  induction calls with
  | nil =>
      intro idx block trace
      exact ⟨0, by simp, by simp, by simp [runInits]⟩
  | cons c cs ih =>
      intro idx block trace
      by_cases hs : hasInitSuffix c
      · match ho : oracle idx with
        | none =>
            obtain ⟨k, hk, hsuf, htr⟩ := ih (idx + 1) (eraseCall c block) (trace ++ evPair c)
            refine ⟨k + 1, by simpa using hk, ?_, ?_⟩
            · intro x hx
              rw [List.take_succ_cons] at hx
              rcases List.mem_cons.mp hx with hx | hx
              · exact hx ▸ hs
              · exact hsuf x hx
            · have step : runInits oracle idx (c :: cs) block trace =
                  runInits oracle (idx + 1) cs (eraseCall c block) (trace ++ evPair c) := by
                simp [runInits, hs, ho, evPair]
              rw [step, htr]
              simp [evPair]
        | some EvalErr.unreachable =>
            refine ⟨1, by simp, by simpa using hs, ?_⟩
            simp [runInits, hs, ho, evPair]
        | some EvalErr.unevaluable =>
            refine ⟨1, by simp, by simpa using hs, ?_⟩
            simp [runInits, hs, ho, evPair]
        | some (EvalErr.other msg) =>
            refine ⟨1, by simp, by simpa using hs, ?_⟩
            simp [runInits, hs, ho, evPair]
      · refine ⟨0, by simp, by simp, ?_⟩
        simp [runInits, hs]

/-- `Run`-level trace shape. -/
lemma run_trace_shape (block : List Instr) (oracle : Nat → Option EvalErr)
    (calls : List String) (hc : collectInitCalls block = Except.ok calls) :
    ∃ k, k ≤ calls.length ∧
      (∀ c ∈ calls.take k, hasInitSuffix c = true) ∧
      (Run block oracle).trace = (calls.take k).flatMap evPair := by
  obtain ⟨k, hk, hsuf, htr⟩ :=
    runInits_trace_shape oracle calls 0 (Instr.alloca :: block) []
  refine ⟨k, hk, hsuf, ?_⟩
  simpa [Run, hc] using htr

/-- If the first `k` inits succeed and the `(k+1)`-st evaluation errors,
`Run` stops right there: `ErrUnreachable` gives a nil error, anything else
is propagated, and in both cases the first `k+1` calls are erased and
evaluated and nothing more happens. -/
lemma run_stop_at (block : List Instr) (oracle : Nat → Option EvalErr)
    (calls : List String) (k : Nat) (e : EvalErr)
    (hc : collectInitCalls block = Except.ok calls)
    (hk : k < calls.length)
    (hsuf : ∀ j (hj : j < calls.length), j ≤ k → hasInitSuffix calls[j] = true)
    (hok : ∀ j, j < k → oracle j = none)
    (he : oracle k = some e) :
    Run block oracle =
      ⟨if e = EvalErr.unreachable then none else some (RunErr.evalErr e),
       eraseList (calls.take (k + 1)) (Instr.alloca :: block),
       (calls.take (k + 1)).flatMap evPair⟩ := by
  have hrun : Run block oracle = runInits oracle 0 calls (Instr.alloca :: block) [] := by
    simp [Run, hc]
  have hstep := runInits_steps oracle k calls 0 (Instr.alloca :: block) []
    hk.le (fun j hj hjk => hsuf j hj hjk.le) (by intro j hj; simpa using hok j hj)
  rw [hrun, hstep, List.drop_eq_getElem_cons hk]
  have hs : hasInitSuffix calls[k] = true := hsuf k hk le_rfl
  rw [eraseList_take_succ calls k hk, flatMap_take_succ calls k hk]
  cases e <;> simp [runInits, hs, he, evPair]

lemma eraseCall_alloca_cons (c : String) (b : List Instr) :
    eraseCall c (Instr.alloca :: b) = Instr.alloca :: eraseCall c b := by
  simp [eraseCall]

/-- The dummy alloca inserted at the head of the entry block survives
`runInits` (nothing ever erases it). -/
lemma runInits_block_alloca (oracle : Nat → Option EvalErr) :
    ∀ (calls : List String) (idx : Nat) (b : List Instr) (t : List Event),
      ∃ r, (runInits oracle idx calls (Instr.alloca :: b) t).block
            = Instr.alloca :: r := by
  intro calls
  induction calls with
  | nil => intro idx b t; exact ⟨b, rfl⟩
  | cons c cs ih =>
      intro idx b t
      by_cases hs : hasInitSuffix c
      · match ho : oracle idx with
        | none =>
            obtain ⟨r, hr⟩ := ih (idx + 1) (eraseCall c b) (t ++ evPair c)
            refine ⟨r, ?_⟩
            rw [← hr]
            simp [runInits, hs, ho, evPair, eraseCall_alloca_cons]
        | some EvalErr.unreachable =>
            exact ⟨eraseCall c b, by simp [runInits, hs, ho, eraseCall_alloca_cons]⟩
        | some EvalErr.unevaluable =>
            exact ⟨eraseCall c b, by simp [runInits, hs, ho, eraseCall_alloca_cons]⟩
        | some (EvalErr.other msg) =>
            exact ⟨eraseCall c b, by simp [runInits, hs, ho, eraseCall_alloca_cons]⟩
      · exact ⟨b, by simp [runInits, hs]⟩

/-- Whatever happens, the block returned by `Run` starts with the dummy
alloca that `Run` inserted and never removed. -/
lemma run_block_alloca (block : List Instr) (oracle : Nat → Option EvalErr) :
    ∃ r, (Run block oracle).block = Instr.alloca :: r := by
  match hc : collectInitCalls block with
  | .error e => exact ⟨block, by simp [Run, hc]⟩
  | .ok calls =>
      obtain ⟨r, hr⟩ := runInits_block_alloca oracle calls 0 block []
      exact ⟨r, by simpa [Run, hc] using hr⟩

lemma collect_alloca_head (r : List Instr) :
    collectInitCalls (Instr.alloca :: r) = Except.error RunErr.notDirectCalls := rfl

/-- **C2**: `Run` processes the collected init calls strictly in IR
instruction order; for each processed call the call instruction is erased
before the callee is evaluated, and all events of an earlier init precede
every event of a later one.  Formally, the driver's event trace is exactly
the concatenation, over some prefix of the collected calls in collection
order, of the pair `[erase c, eval c]`. -/
theorem run_processes_inits_in_order (block : List Instr)
    (oracle : Nat → Option EvalErr) (calls : List String)
    (hc : collectInitCalls block = Except.ok calls) :
    ∃ k, k ≤ calls.length ∧
      (Run block oracle).trace = (calls.take k).flatMap evPair := by
  obtain ⟨k, hk, _, htr⟩ := run_trace_shape block oracle calls hc
  exact ⟨k, hk, htr⟩

/-- Witness for `run_processes_inits_in_order` at a concrete two-init
module. -/
theorem run_processes_inits_in_order_witness :
    ∃ k, k ≤ (["x.init", "y.init"] : List String).length ∧
      (Run [Instr.call "x.init" true, Instr.call "y.init" true, Instr.ret]
          (fun _ => none)).trace =
        ((["x.init", "y.init"] : List String).take k).flatMap evPair :=
  run_processes_inits_in_order
    [Instr.call "x.init" true, Instr.call "y.init" true, Instr.ret]
    (fun _ => none) ["x.init", "y.init"] (by rfl)

/-- **C3**: if evaluating the `(k+1)`-st init yields `ErrUnreachable`,
`Run` stops the loop (no later init is evaluated: the trace is exactly the
events of the first `k+1` calls) and returns nil; any other non-nil
evaluation error is returned to the caller and also stops the loop. -/
theorem run_unreachable_stops_loop (block : List Instr)
    (oracle : Nat → Option EvalErr) (calls : List String) (k : Nat)
    (hc : collectInitCalls block = Except.ok calls)
    (hk : k < calls.length)
    (hsuf : ∀ j (hj : j < calls.length), j ≤ k → hasInitSuffix calls[j] = true)
    (hok : ∀ j, j < k → oracle j = none) :
    (oracle k = some EvalErr.unreachable →
      (Run block oracle).err = none ∧
      (Run block oracle).trace = (calls.take (k + 1)).flatMap evPair) ∧
    (∀ e, oracle k = some e → e ≠ EvalErr.unreachable →
      (Run block oracle).err = some (RunErr.evalErr e) ∧
      (Run block oracle).trace = (calls.take (k + 1)).flatMap evPair) := by
  constructor
  · intro he
    rw [run_stop_at block oracle calls k EvalErr.unreachable hc hk hsuf hok he]
    exact ⟨by simp, rfl⟩
  · intro e he hne
    rw [run_stop_at block oracle calls k e hc hk hsuf hok he]
    exact ⟨by simp [hne], rfl⟩

/-- Witness for `run_unreachable_stops_loop`: three inits, the second
returns `ErrUnreachable`, so `Run` succeeds having evaluated only the
first two. -/
theorem run_unreachable_stops_loop_witness :
    (Run [Instr.call "a.init" true, Instr.call "b.init" true,
          Instr.call "c.init" true, Instr.ret]
        (fun i => if i = 1 then some EvalErr.unreachable else none)).err = none ∧
    (Run [Instr.call "a.init" true, Instr.call "b.init" true,
          Instr.call "c.init" true, Instr.ret]
        (fun i => if i = 1 then some EvalErr.unreachable else none)).trace =
      ((["a.init", "b.init", "c.init"] : List String).take 2).flatMap evPair :=
  (run_unreachable_stops_loop
    [Instr.call "a.init" true, Instr.call "b.init" true,
     Instr.call "c.init" true, Instr.ret]
    (fun i => if i = 1 then some EvalErr.unreachable else none)
    ["a.init", "b.init", "c.init"] 1 (by rfl) (by decide)
    (by decide) (by decide)).1 (by decide)

/-- **C1** (counterexample): a single init that fails with the local
`unevaluable` error.  `Run` returns the error, but the module is *not*
restored: the erased call is not re-inserted (it is absent from the final
block), so the final block differs from the block as it stood before the
init's evaluation began. -/
theorem run_no_rollback_counterexample :
    (Run [Instr.call "a.init" true, Instr.ret]
        (fun _ => some EvalErr.unevaluable)).err
      = some (RunErr.evalErr EvalErr.unevaluable) ∧
    Instr.call "a.init" true ∉
      (Run [Instr.call "a.init" true, Instr.ret]
          (fun _ => some EvalErr.unevaluable)).block ∧
    (Run [Instr.call "a.init" true, Instr.ret]
        (fun _ => some EvalErr.unevaluable)).block
      ≠ Instr.alloca :: [Instr.call "a.init" true, Instr.ret] := by
  decide

/-- **C1** (amended): `Run` performs no rollback on a local error.  When
the `(k+1)`-st init's evaluation fails with a non-`ErrUnreachable` error,
`Run` returns that error immediately; no abstract-memory snapshot is
restored and the erased calls are not re-inserted — the resulting entry
block is the pre-run block with the dummy alloca prepended and the first
`k+1` calls erased, not the block from before the init's evaluation. -/
theorem run_error_leaves_call_erased (block : List Instr)
    (oracle : Nat → Option EvalErr) (calls : List String) (k : Nat) (e : EvalErr)
    (hc : collectInitCalls block = Except.ok calls)
    (hk : k < calls.length)
    (hsuf : ∀ j (hj : j < calls.length), j ≤ k → hasInitSuffix calls[j] = true)
    (hok : ∀ j, j < k → oracle j = none)
    (he : oracle k = some e) (hne : e ≠ EvalErr.unreachable) :
    (Run block oracle).err = some (RunErr.evalErr e) ∧
    (Run block oracle).block
      = eraseList (calls.take (k + 1)) (Instr.alloca :: block) := by
  rw [run_stop_at block oracle calls k e hc hk hsuf hok he]
  exact ⟨by simp [hne], rfl⟩

/-- Witness for `run_error_leaves_call_erased` at a concrete input. -/
theorem run_error_leaves_call_erased_witness :
    (Run [Instr.call "p.init" true, Instr.ret]
        (fun _ => some EvalErr.unevaluable)).err
      = some (RunErr.evalErr EvalErr.unevaluable) ∧
    (Run [Instr.call "p.init" true, Instr.ret]
        (fun _ => some EvalErr.unevaluable)).block
      = eraseList ((["p.init"] : List String).take 1)
          (Instr.alloca :: [Instr.call "p.init" true, Instr.ret]) :=
  run_error_leaves_call_erased
    [Instr.call "p.init" true, Instr.ret] (fun _ => some EvalErr.unevaluable)
    ["p.init"] 0 EvalErr.unevaluable (by rfl) (by decide) (by decide)
    (by decide) (by decide) (by decide)

/-- **C6** (counterexample): running the pass twice is *not* idempotent.
On the empty aggregator body `[ret]` the first `Run` succeeds but leaves
its dummy alloca in the block; the second `Run` then fails with the
malformed-IR error (the leftover alloca is neither a call nor a return)
and has inserted yet another dummy, changing the module again. -/
theorem run_not_idempotent_counterexample :
    (Run [Instr.ret] (fun _ => none)).err = none ∧
    (Run (Run [Instr.ret] (fun _ => none)).block (fun _ => none)).err
      = some RunErr.notDirectCalls ∧
    (Run (Run [Instr.ret] (fun _ => none)).block (fun _ => none)).block
      ≠ (Run [Instr.ret] (fun _ => none)).block := by
  decide

/-- **C6** (amended): a second invocation of `Run` on the module left by a
successful run always fails with the `expected all instructions … to be
direct calls` error, because the first run's dummy alloca was never
removed; the second run evaluates nothing and prepends another dummy, so
the module is changed again. -/
theorem run_second_invocation_fails (block : List Instr)
    (o1 o2 : Nat → Option EvalErr) (h : (Run block o1).err = none) :
    (Run (Run block o1).block o2).err = some RunErr.notDirectCalls ∧
    (Run (Run block o1).block o2).block = Instr.alloca :: (Run block o1).block ∧
    (Run (Run block o1).block o2).trace = [] := by
  obtain ⟨r, hr⟩ := run_block_alloca block o1
  rw [hr]
  refine ⟨?_, ?_, ?_⟩ <;> simp [Run, collect_alloca_head]

/-- Witness for `run_second_invocation_fails` at a concrete input. -/
theorem run_second_invocation_fails_witness :
    (Run (Run [Instr.ret] (fun _ => none)).block (fun _ => none)).err
      = some RunErr.notDirectCalls ∧
    (Run (Run [Instr.ret] (fun _ => none)).block (fun _ => none)).block
      = Instr.alloca :: (Run [Instr.ret] (fun _ => none)).block ∧
    (Run (Run [Instr.ret] (fun _ => none)).block (fun _ => none)).trace = [] :=
  run_second_invocation_fails [Instr.ret] (fun _ => none) (fun _ => none)
    (by decide)

/-- **C5** (counterexample): the `.init`-suffix check does *not* happen
before evaluation begins.  With calls `a.init` and `b.bad`, `Run` first
erases and evaluates `a.init` and only then returns the `*.init() calls`
error for `b.bad` — so the error is not returned "without evaluating any
init". -/
theorem run_suffix_check_after_eval_counterexample :
    (Run [Instr.call "a.init" true, Instr.call "b.bad" true, Instr.ret]
        (fun _ => none)).err = some RunErr.notInitCalls ∧
    Event.eval "a.init" "a" [ArgValue.localUndefPtr, ArgValue.localUndefPtr] ∈
      (Run [Instr.call "a.init" true, Instr.call "b.bad" true, Instr.ret]
          (fun _ => none)).trace := by
  decide

/-- Every `eval` event in a `Run` trace carries the package name obtained
by stripping `.init` from the callee (which passed the suffix check) and
exactly the two undef `i8*` arguments. -/
lemma run_eval_event_shape (block : List Instr) (oracle : Nat → Option EvalErr) :
    ∀ c p a, Event.eval c p a ∈ (Run block oracle).trace →
      p = dropInitSuffix c ∧ hasInitSuffix c = true ∧
      a = [ArgValue.localUndefPtr, ArgValue.localUndefPtr] := by
  intro c p a hmem
  match hc : collectInitCalls block with
  | .error e =>
      rw [show Run block oracle = ⟨some e, Instr.alloca :: block, []⟩ by
        simp [Run, hc]] at hmem
      simp at hmem
  | .ok calls =>
      obtain ⟨k, _, hsuf, htr⟩ := run_trace_shape block oracle calls hc
      rw [htr] at hmem
      obtain ⟨c', hc', hev⟩ := List.mem_flatMap.mp hmem
      have heq : Event.eval c p a
          = Event.eval c' (dropInitSuffix c')
              [ArgValue.localUndefPtr, ArgValue.localUndefPtr] := by
        simpa [evPair] using hev
      obtain ⟨hcc, hpp, haa⟩ := Event.eval.inj heq
      subst hcc
      exact ⟨hpp, hsuf c hc', haa⟩

/-- **C5** (amended): scanning the entry block rejects any non-return
instruction that is not a direct call to a function *before* any init is
evaluated or erased; the `.init`-suffix check, however, happens per call in
the processing loop, so when the `(k+1)`-st collected call lacks the
suffix, the first `k` inits have already been erased and evaluated when
`Run` returns the error.  For every call whose evaluation begins, the
package name passed is the callee name with the 5-character `.init` suffix
removed. -/
theorem run_scan_and_suffix_check (block : List Instr)
    (oracle : Nat → Option EvalErr) :
    (∀ e, collectInitCalls block = Except.error e →
      Run block oracle = ⟨some e, Instr.alloca :: block, []⟩) ∧
    (∀ calls k, collectInitCalls block = Except.ok calls →
      ∀ (hk : k < calls.length),
      (∀ j (hj : j < calls.length), j < k → hasInitSuffix calls[j] = true) →
      (∀ j, j < k → oracle j = none) →
      hasInitSuffix calls[k] = false →
      Run block oracle =
        ⟨some RunErr.notInitCalls,
         eraseList (calls.take k) (Instr.alloca :: block),
         (calls.take k).flatMap evPair⟩) ∧
    (∀ c p a, Event.eval c p a ∈ (Run block oracle).trace →
      p = dropInitSuffix c ∧ hasInitSuffix c = true) := by
  refine ⟨?_, ?_, ?_⟩
  · intro e hc
    simp [Run, hc]
  · intro calls k hc hk hsuf hok hbad
    have hrun : Run block oracle = runInits oracle 0 calls (Instr.alloca :: block) [] := by
      simp [Run, hc]
    have hstep := runInits_steps oracle k calls 0 (Instr.alloca :: block) []
      hk.le hsuf (by intro j hj; simpa using hok j hj)
    rw [hrun, hstep, List.drop_eq_getElem_cons hk]
    simp [runInits, hbad]
  · intro c p a hmem
    obtain ⟨hpp, hsfx, -⟩ := run_eval_event_shape block oracle c p a hmem
    exact ⟨hpp, hsfx⟩

/-- Witness for `run_scan_and_suffix_check`: the scan-error part at a
block whose second instruction is not a call. -/
theorem run_scan_and_suffix_check_witness :
    Run [Instr.call "a.init" true, Instr.other, Instr.ret] (fun _ => none)
      = ⟨some RunErr.notDirectCalls,
         Instr.alloca :: [Instr.call "a.init" true, Instr.other, Instr.ret],
         []⟩ :=
  (run_scan_and_suffix_check
      [Instr.call "a.init" true, Instr.other, Instr.ret] (fun _ => none)).1
    RunErr.notDirectCalls (by rfl)

/-- Case analysis on a non-panicking `markDirty` call on a global
variable: either nothing changed, or a non-constant global that was not
dirty before was pushed onto the dirty-set and the cache was nulled. -/
lemma markDirty_globalVar_cases (e : EvalState) (g : GlobalVar) (e' : EvalState)
    (h : markDirty e (IRValue.globalVar g) = some e') :
    e' = e ∨ (g.isGlobalConstant = false ∧ g ∉ e.dirtyGlobals ∧
      e' = ⟨g :: e.dirtyGlobals, none⟩) := by
  cases hc : g.isGlobalConstant with
  | true =>
      left
      simp [markDirty, hc] at h
      exact h.symm
  | false =>
      by_cases hm : g ∈ e.dirtyGlobals
      · left
        simp [markDirty, hc, hm] at h
        exact h.symm
      · right
        simp [markDirty, hc, hm] at h
        exact ⟨rfl, hm, h.symm⟩

/-- Case analysis on any non-panicking `markDirty` call. -/
lemma markDirty_some_cases (e : EvalState) (v : IRValue) (e' : EvalState)
    (h : markDirty e v = some e') :
    e' = e ∨ ∃ g : GlobalVar, g.isGlobalConstant = false ∧ g ∉ e.dirtyGlobals ∧
      e' = ⟨g :: e.dirtyGlobals, none⟩ := by
  match v with
  | IRValue.globalVar g =>
      rcases markDirty_globalVar_cases e g e' h with h1 | h1
      · exact Or.inl h1
      · exact Or.inr ⟨g, h1⟩
  | IRValue.constExpr [] => exact Or.inl (by simpa [markDirty] using h.symm)
  | IRValue.constExpr [op0] => exact Or.inl (by simpa [markDirty] using h.symm)
  | IRValue.constExpr (op0 :: op1 :: rest) =>
      match op0 with
      | IRValue.globalVar g =>
          have h' : markDirty e (IRValue.globalVar g) = some e' := by
            simpa [markDirty, isGlobalVariable] using h
          rcases markDirty_globalVar_cases e g e' h' with h1 | h1
          · exact Or.inl h1
          · exact Or.inr ⟨g, h1⟩
      | IRValue.constExpr ops' =>
          exact Or.inl (by simpa [markDirty, isGlobalVariable] using h.symm)
      | IRValue.gepInstr =>
          exact Or.inl (by simpa [markDirty, isGlobalVariable] using h.symm)
      | IRValue.otherValue =>
          exact Or.inl (by simpa [markDirty, isGlobalVariable] using h.symm)
  | IRValue.gepInstr => exact absurd h (by simp [markDirty])
  | IRValue.otherValue => exact Or.inl (by simpa [markDirty] using h.symm)

/-- **C4**: `markDirty` on a non-constant global variable that is not yet
in the dirty-set adds it and nulls the entire side-effect cache in the
same step; if the global is already dirty, both the dirty-set and the
cache are left unchanged.  A constant with at least two operands whose
first operand is a global variable (a constant getelementptr over a
global) marks the underlying global dirty under exactly the same rule. -/
theorem markDirty_invalidates_cache (e : EvalState) (g : GlobalVar)
    (op1 : IRValue) (rest : List IRValue) (hg : g.isGlobalConstant = false) :
    (g ∉ e.dirtyGlobals →
      markDirty e (IRValue.globalVar g)
        = some ⟨g :: e.dirtyGlobals, none⟩) ∧
    (g ∈ e.dirtyGlobals → markDirty e (IRValue.globalVar g) = some e) ∧
    markDirty e (IRValue.constExpr (IRValue.globalVar g :: op1 :: rest))
      = markDirty e (IRValue.globalVar g) := by
  refine ⟨?_, ?_, ?_⟩
  · intro hmem
    simp [markDirty, hg, hmem]
  · intro hmem
    simp [markDirty, hg, hmem]
  · simp [markDirty, isGlobalVariable]

/-- Witness for `markDirty_invalidates_cache`: a fresh non-constant global
enters the empty dirty-set and the cache is nulled. -/
theorem markDirty_invalidates_cache_witness :
    markDirty ⟨[], some [7]⟩ (IRValue.globalVar ⟨1, false⟩)
      = some ⟨[⟨1, false⟩], none⟩ :=
  (markDirty_invalidates_cache ⟨[], some [7]⟩ ⟨1, false⟩ IRValue.otherValue []
      (by rfl)).1 (by simp)

/-- **C9** (counterexample): `markDirty` on a `getelementptr`
*instruction* does not return with the state unchanged — it panics
(`panic("interp: todo: GEP")`, modelled by `none`). -/
theorem markDirty_gep_panics_counterexample :
    markDirty ⟨[], some []⟩ IRValue.gepInstr = none ∧
    markDirty ⟨[], some []⟩ IRValue.gepInstr ≠ some ⟨[], some []⟩ := by
  constructor
  · simp [markDirty]
  · simp [markDirty]

/-- **C9** (amended): the dirty-set only grows and never contains a
read-only global — `markDirty` is a no-op on global constants, no
operation removes entries, and a value that is neither a global variable
nor a constant-over-a-global leaves the state unchanged *unless* it is a
`getelementptr` instruction, in which case `markDirty` panics
(`interp: todo: GEP`) instead of returning. -/
theorem markDirty_dirty_set_only_grows (e : EvalState) (v : IRValue) :
    (∀ e', markDirty e v = some e' →
      ∀ x ∈ e.dirtyGlobals, x ∈ e'.dirtyGlobals) ∧
    (∀ e', markDirty e v = some e' →
      (∀ x ∈ e.dirtyGlobals, x.isGlobalConstant = false) →
      ∀ x ∈ e'.dirtyGlobals, x.isGlobalConstant = false) ∧
    (∀ g : GlobalVar, g.isGlobalConstant = true →
      markDirty e (IRValue.globalVar g) = some e) ∧
    markDirty e IRValue.otherValue = some e ∧
    markDirty e IRValue.gepInstr = none := by
  refine ⟨?_, ?_, ?_, by simp [markDirty], by simp [markDirty]⟩
  · intro e' h x hx
    rcases markDirty_some_cases e v e' h with h1 | ⟨g, -, -, h1⟩
    · exact h1 ▸ hx
    · subst h1
      exact List.mem_cons_of_mem g hx
  · intro e' h hro x hx
    rcases markDirty_some_cases e v e' h with h1 | ⟨g, hgf, -, h1⟩
    · exact hro x (h1 ▸ hx)
    · subst h1
      rcases List.mem_cons.mp hx with h2 | h2
      · exact h2 ▸ hgf
      · exact hro x h2
  · intro g hg
    simp [markDirty, hg]

/-- Witness for `markDirty_dirty_set_only_grows`: the no-op on a global
constant, at a concrete state. -/
theorem markDirty_dirty_set_only_grows_witness :
    markDirty ⟨[], some [7]⟩ (IRValue.globalVar ⟨5, true⟩)
      = some ⟨[], some [7]⟩ :=
  (markDirty_dirty_set_only_grows ⟨[], some [7]⟩ IRValue.otherValue).2.2.1
    ⟨5, true⟩ (by rfl)

lemma linesMatch_iff : ∀ l1 l2 : List String, linesMatch l1 l2 = true ↔ l1 = l2 := by
  intro l1
  induction l1 with
  | nil =>
      intro l2
      cases l2 <;> simp [linesMatch]
  | cons a r ih =>
      intro l2
      cases l2 with
      | nil => simp [linesMatch]
      | cons b r2 => simp [linesMatch, ih r2]

/-- **C8**: `fuzzyEqualIR s1 s2` is true iff, after removing exactly the
empty lines, the lines starting with `;`, and the lines beginning with
`source_filename = `, the two line sequences are equal (same length, equal
line by line); the helper filter coincides with that description, and the
comparison is reflexive and symmetric. -/
theorem fuzzyEqualIR_spec :
    (∀ s1 s2, fuzzyEqualIR s1 s2 = true ↔
      filterIrrelevantIRLines (s1.splitOn "\n")
        = filterIrrelevantIRLines (s2.splitOn "\n")) ∧
    (∀ lines, filterIrrelevantIRLines lines = relevantLineFilter lines) ∧
    (∀ s, fuzzyEqualIR s s = true) ∧
    (∀ s1 s2, fuzzyEqualIR s1 s2 = fuzzyEqualIR s2 s1) := by
  have hiff : ∀ s1 s2, fuzzyEqualIR s1 s2 = true ↔
      filterIrrelevantIRLines (s1.splitOn "\n")
        = filterIrrelevantIRLines (s2.splitOn "\n") := by
    intro s1 s2
    unfold fuzzyEqualIR
    by_cases h : (filterIrrelevantIRLines (s1.splitOn "\n")).length
        = (filterIrrelevantIRLines (s2.splitOn "\n")).length
    · simp [h, linesMatch_iff]
    · have hne : ((filterIrrelevantIRLines (s1.splitOn "\n")).length
          != (filterIrrelevantIRLines (s2.splitOn "\n")).length) = true := by
        simpa using h
      simp only [hne, if_true]
      constructor
      · intro hfalse
        exact absurd hfalse (by simp)
      · intro heq
        exact absurd (congrArg List.length heq) h
  refine ⟨hiff, ?_, ?_, ?_⟩
  · intro lines
    induction lines with
    | nil => rfl
    | cons line rest ih =>
        by_cases he : line = "" <;>
          by_cases hf : line.front = ';' <;>
            by_cases hs : line.startsWith "source_filename = " = true <;>
              simp [filterIrrelevantIRLines, relevantLineFilter,
                List.filter_cons, he, hf, hs, ih]
  · intro s
    exact (hiff s s).mpr rfl
  · intro s1 s2
    cases h12 : fuzzyEqualIR s1 s2 with
    | true =>
        exact ((hiff s2 s1).mpr ((hiff s1 s2).mp h12).symm).symm
    | false =>
        cases h21 : fuzzyEqualIR s2 s1 with
        | true =>
            have := (hiff s1 s2).mpr ((hiff s2 s1).mp h21).symm
            rw [h12] at this
            exact absurd this (by simp)
        | false => rfl

/-- **C10**: `function` seeds the frame's locals by position with no
length check, so any callee with more IR parameters than supplied values
panics (index out of range) instead of returning an error; and the driver
passes exactly two undef `i8*` values to every init call regardless of the
callee's arity. -/
theorem function_seeds_locals_positionally {α : Type}
    (fnParams : List Nat) (params : List α)
    (block : List Instr) (oracle : Nat → Option EvalErr) :
    (params.length < fnParams.length → seedLocals fnParams params = none) ∧
    (∀ c p a, Event.eval c p a ∈ (Run block oracle).trace →
      a = [ArgValue.localUndefPtr, ArgValue.localUndefPtr]) := by
  constructor
  · induction fnParams generalizing params with
    | nil => intro h; simp at h
    | cons q qs ih =>
        intro h
        match params with
        | [] => rfl
        | v :: vs =>
            have : vs.length < qs.length := by simpa using h
            simp [seedLocals, ih vs this]
  · intro c p a hmem
    exact (run_eval_event_shape block oracle c p a hmem).2.2

/-- Witness for `function_seeds_locals_positionally`: a three-parameter
callee fed the driver's two-element parameter list panics. -/
theorem function_seeds_locals_positionally_witness :
    seedLocals [1, 2, 3]
      [ArgValue.localUndefPtr, ArgValue.localUndefPtr] = none :=
  (function_seeds_locals_positionally [1, 2, 3]
      [ArgValue.localUndefPtr, ArgValue.localUndefPtr] [] (fun _ => none)).1
    (by decide)

lemma specFunction_cycle : ∀ (fuel fn : Nat),
    specFunction cycleGraph fuel fn = Except.error EvalErr.unevaluable := by
  intro fuel
  induction fuel with
  | zero => intro fn; rfl
  | succ fuel ih =>
      intro fn
      by_cases h : fn = 0 <;> simp [specFunction, cycleGraph, h, ih]

/-- **C7** (amended): evaluation depth is bounded — entering a frame past
the ceiling returns the local `unevaluable` error rather than recursing
without bound, and in particular the mutual recursion `A calls B, B calls
A` fails with `unevaluable` at every ceiling (spec-modelled, as the
recursive call dispatch is not part of the sources under study).  However,
the failing call does *not* remain in the IR: the driver erased it before
evaluation and never re-inserts it, returning the error with the call
absent. -/
theorem recursion_ceiling_unevaluable (block : List Instr)
    (oracle : Nat → Option EvalErr) (calls : List String) (k : Nat)
    (hc : collectInitCalls block = Except.ok calls)
    (hk : k < calls.length)
    (hsuf : ∀ j (hj : j < calls.length), j ≤ k → hasInitSuffix calls[j] = true)
    (hok : ∀ j, j < k → oracle j = none) :
    (∀ (g : Nat → List Nat) (fn : Nat),
      specFunction g 0 fn = Except.error EvalErr.unevaluable) ∧
    (∀ fuel fn, specFunction cycleGraph fuel fn
      = Except.error EvalErr.unevaluable) ∧
    (oracle k = some EvalErr.unevaluable →
      (Run block oracle).err = some (RunErr.evalErr EvalErr.unevaluable) ∧
      (Run block oracle).block
        = eraseList (calls.take (k + 1)) (Instr.alloca :: block)) := by
  refine ⟨fun g fn => rfl, specFunction_cycle, ?_⟩
  intro he
  rw [run_stop_at block oracle calls k EvalErr.unevaluable hc hk hsuf hok he]
  exact ⟨by simp, rfl⟩

/-- Witness for `recursion_ceiling_unevaluable` at a concrete module with
one init failing as `unevaluable`. -/
theorem recursion_ceiling_unevaluable_witness :
    (Run [Instr.call "r.init" true, Instr.ret]
        (fun _ => some EvalErr.unevaluable)).err
      = some (RunErr.evalErr EvalErr.unevaluable) ∧
    (Run [Instr.call "r.init" true, Instr.ret]
        (fun _ => some EvalErr.unevaluable)).block
      = eraseList ((["r.init"] : List String).take 1)
          (Instr.alloca :: [Instr.call "r.init" true, Instr.ret]) :=
  (recursion_ceiling_unevaluable
      [Instr.call "r.init" true, Instr.ret] (fun _ => some EvalErr.unevaluable)
      ["r.init"] 0 (by rfl) (by decide) (by decide) (by decide)).2.2 (by decide)

/-- **C7** (counterexample): with an init whose evaluation fails locally
(e.g. via the recursion limit), the call does *not* remain in the IR as
the claim states: the driver erased it before evaluating and does not
re-insert it. -/
theorem recursion_call_not_left_in_ir_counterexample :
    (Run [Instr.call "recur.init" true, Instr.ret]
        (fun _ => some EvalErr.unevaluable)).err
      = some (RunErr.evalErr EvalErr.unevaluable) ∧
    Instr.call "recur.init" true ∉
      (Run [Instr.call "recur.init" true, Instr.ret]
          (fun _ => some EvalErr.unevaluable)).block := by
  decide

end Interp
